import Mathlib

/-!
Verification development for the `express-nis2-middleware` request-pipeline
guard.  The TypeScript sources are shallowly embedded: JavaScript strings are
modelled as lists of characters (`Str`), JavaScript numbers that hold counts
are modelled as `Int`, timestamps as `Nat` (milliseconds), the in-memory
`Map` of the rate-limit store as a function `Str → Option HitRecord`, and
fallible store calls as `Except`.  Every definition mirrors the corresponding
source function; names follow the source where Lean allows it.
-/

/-- JavaScript strings are modelled as lists of characters. -/
abbrev Str := List Char

/-! ## String helpers (embedding of JavaScript `split`, `trim`, `startsWith`)

`splitSep c l` is JavaScript `l.split(c)` for a one-character separator:
it always returns a non-empty list of separator-free pieces. -/

/-- JavaScript `String.prototype.split` with a single-character separator. -/
def splitSep (c : Char) : List Char → List (List Char)
  | [] => [[]]
  | x :: xs =>
    if x = c then [] :: splitSep c xs
    else
      match splitSep c xs with
      | [] => [[x]]
      | h :: t => (x :: h) :: t

/-- JavaScript `Array.prototype.join` with a single-character separator. -/
def joinSep (c : Char) : List (List Char) → List Char
  | [] => []
  | [p] => p
  | p :: ps => p ++ c :: joinSep c ps

/-- JavaScript `String.prototype.trim` (ASCII whitespace). -/
def trimChars (l : List Char) : List Char :=
  ((l.dropWhile Char.isWhitespace).reverse.dropWhile Char.isWhitespace).reverse

theorem splitSep_ne_nil (c : Char) (l : List Char) : splitSep c l ≠ [] := by
  induction l with
  | nil => simp [splitSep]
  | cons x xs ih =>
    simp only [splitSep]
    split
    · simp
    · split
      · simp
      · simp

/-- Splitting a list whose head is not the separator keeps that head at the
front of the first piece. -/
theorem splitSep_cons_of_ne {c x : Char} (xs : List Char) (hx : x ≠ c) :
    ∃ h t, splitSep c (x :: xs) = (x :: h) :: t ∧ splitSep c xs = h :: t := by
  rcases hsp : splitSep c xs with _ | ⟨h, t⟩
  · exact absurd hsp (splitSep_ne_nil c xs)
  · exact ⟨h, t, by simp [splitSep, hx, hsp], rfl⟩

theorem not_mem_of_mem_splitSep {c : Char} {l : List Char} {p : List Char}
    (hp : p ∈ splitSep c l) : c ∉ p := by
  induction l generalizing p with
  | nil =>
    simp only [splitSep, List.mem_singleton] at hp
    simp [hp]
  | cons x xs ih =>
    by_cases hxc : x = c
    · subst hxc
      simp only [splitSep, if_true, eq_self_iff_true, List.mem_cons] at hp
      rcases hp with rfl | hp
      · simp
      · exact ih hp
    · obtain ⟨h, t, heq, hsp⟩ := splitSep_cons_of_ne xs hxc
      rw [heq, List.mem_cons] at hp
      rcases hp with rfl | hp
      · intro hm
        rcases List.mem_cons.mp hm with rfl | hm
        · exact hxc rfl
        · exact ih (hsp ▸ List.mem_cons_self h t) hm
      · exact ih (hsp ▸ List.mem_cons_of_mem h hp)

theorem mem_of_mem_splitSep {c x : Char} {l p : List Char}
    (hp : p ∈ splitSep c l) (hx : x ∈ p) : x ∈ l := by
  induction l generalizing p with
  | nil =>
    simp only [splitSep, List.mem_singleton] at hp
    subst hp
    simp at hx
  | cons y ys ih =>
    by_cases hyc : y = c
    · subst hyc
      simp only [splitSep, if_true, eq_self_iff_true, List.mem_cons] at hp
      rcases hp with rfl | hp
      · simp at hx
      · exact List.mem_cons_of_mem _ (ih hp hx)
    · obtain ⟨h, t, heq, hsp⟩ := splitSep_cons_of_ne ys hyc
      rw [heq, List.mem_cons] at hp
      rcases hp with rfl | hp
      · rcases List.mem_cons.mp hx with rfl | hx
        · exact List.mem_cons_self _ _
        · exact List.mem_cons_of_mem _ (ih (hsp ▸ List.mem_cons_self h t) hx)
      · exact List.mem_cons_of_mem _ (ih (hsp ▸ List.mem_cons_of_mem h hp) hx)

theorem splitSep_of_not_mem {c : Char} {p : List Char} (hp : c ∉ p) :
    splitSep c p = [p] := by
  induction p with
  | nil => rfl
  | cons x xs ih =>
    have hx : x ≠ c := fun h => hp (by simp [h])
    have hxs : c ∉ xs := fun h => hp (List.mem_cons_of_mem _ h)
    simp [splitSep, hx, ih hxs]

theorem splitSep_append_cons {c : Char} {p : List Char} (hp : c ∉ p)
    (r : List Char) : splitSep c (p ++ c :: r) = p :: splitSep c r := by
  induction p with
  | nil => simp [splitSep]
  | cons x xs ih =>
    have hx : x ≠ c := fun h => hp (by simp [h])
    have hxs : c ∉ xs := fun h => hp (List.mem_cons_of_mem _ h)
    obtain ⟨h, t, heq, hsp⟩ := splitSep_cons_of_ne (xs ++ c :: r) hx
    rw [List.cons_append, heq]
    have hcons : h :: t = xs :: splitSep c r := hsp ▸ ih hxs
    injection hcons with h1 h2
    subst h1
    subst h2
    rfl

/-- `splitSep` is a left inverse of `joinSep` on non-empty lists of
separator-free pieces. -/
theorem splitSep_joinSep {c : Char} :
    ∀ {ps : List (List Char)}, ps ≠ [] → (∀ p ∈ ps, c ∉ p) →
      splitSep c (joinSep c ps) = ps
  | [], h, _ => absurd rfl h
  | [p], _, hps => by
      simp [joinSep, splitSep_of_not_mem (hps p (List.mem_singleton.mpr rfl))]
  | p :: q :: ps, _, hps => by
      have h1 : c ∉ p := hps p (List.mem_cons_self _ _)
      have h2 : ∀ r ∈ q :: ps, c ∉ r := fun r hr => hps r (List.mem_cons_of_mem _ hr)
      have ih := @splitSep_joinSep c (q :: ps) (by simp) h2
      simp only [joinSep]
      rw [splitSep_append_cons h1, ih]

/-- Members of a `joinSep` come from the separator or from the pieces. -/
theorem mem_joinSep {c x : Char} :
    ∀ {ps : List (List Char)}, x ∈ joinSep c ps → x = c ∨ ∃ p ∈ ps, x ∈ p
  | [], h => by simp [joinSep] at h
  | [p], h => by
      simp only [joinSep] at h
      exact Or.inr ⟨p, List.mem_singleton.mpr rfl, h⟩
  | p :: q :: ps, h => by
      simp only [joinSep] at h
      rcases List.mem_append.mp h with h | h
      · exact Or.inr ⟨p, List.mem_cons_self _ _, h⟩
      · rcases List.mem_cons.mp h with rfl | h
        · exact Or.inl rfl
        · rcases @mem_joinSep c x (q :: ps) h with h | ⟨r, hr, hx⟩
          · exact Or.inl h
          · exact Or.inr ⟨r, List.mem_cons_of_mem _ hr, hx⟩

/-! ## `getClientIP` (src/utils/ipUtils.ts)

```
const forwarded = req.headers['x-forwarded-for'];
if (forwarded) {
  const ips = Array.isArray(forwarded) ? forwarded : forwarded.split(',');
  return ips[0].trim();
}
return req.socket.remoteAddress || 'unknown';
```
An absent header is `none`; the empty string is falsy in JavaScript, so both
`none` and `some []` fall through to the socket address. -/

/-- Fallback identity: `req.socket.remoteAddress || 'unknown'`. -/
def remoteOrUnknown (remoteAddress : Option Str) : Str :=
  match remoteAddress with
  | some r => if r = [] then "unknown".toList else r
  | none => "unknown".toList

/-- Embedding of `getClientIP` (string-valued header case). -/
def getClientIP (xForwardedFor : Option Str) (remoteAddress : Option Str) : Str :=
  match xForwardedFor with
  | some forwarded =>
    if forwarded = [] then remoteOrUnknown remoteAddress
    else trimChars ((splitSep ',' forwarded).headD [])
  | none => remoteOrUnknown remoteAddress

/-! ## `anonymizeIP` (src/utils/ipUtils.ts) -/

/-- The character list of the IPv6-mapped-IPv4 marker `"::ffff:"`. -/
def mappedPre : List Char := [':', ':', 'f', 'f', 'f', 'f', ':']

/-- Embedding of `anonymizeIP`:

```
if (!ip || ip === 'unknown') return 'unknown';
if (ip.startsWith('::ffff:')) ip = ip.substring(7);
if (ip.includes(':')) {
  const parts = ip.split(':');
  if (parts.length >= 3) return parts.slice(0,3).join(':') + ':xxxx:xxxx:xxxx:xxxx:xxxx';
  return ip;
}
const parts = ip.split('.');
if (parts.length === 4) return parts.slice(0,3).join('.') + '.0';
return ip;
``` -/
def stripMapped (ip0 : Str) : Str :=
  if mappedPre.isPrefixOf ip0 then ip0.drop 7 else ip0

/-- The two masking branches of `anonymizeIP` (after the `::ffff:` strip). -/
def anonMask (ip : Str) : Str :=
  if ':' ∈ ip then
    let parts := splitSep ':' ip
    if 3 ≤ parts.length then
      joinSep ':' (parts.take 3) ++ ":xxxx:xxxx:xxxx:xxxx:xxxx".toList
    else ip
  else
    let parts := splitSep '.' ip
    if parts.length = 4 then
      joinSep '.' (parts.take 3) ++ ".0".toList
    else ip

def anonymizeIP (ip0 : Str) : Str :=
  if ip0 = [] ∨ ip0 = "unknown".toList then "unknown".toList
  else anonMask (stripMapped ip0)

/-! ### Facts about the `::ffff:` marker and list shapes -/

theorem isPrefixOf_mapped_eq_false {l : Str} (h : l.head? ≠ some ':') :
    mappedPre.isPrefixOf l = false := by
  cases l with
  | nil => rfl
  | cons x xs =>
    have hx : (':' : Char) ≠ x := by
      intro hx
      exact h (by simp [hx.symm])
    have hb : ((':' : Char) == x) = false := beq_eq_false_iff_ne.mpr hx
    simp [mappedPre, List.isPrefixOf, hb]

theorem colon_mem_of_isPrefixOf {l : Str} (h : mappedPre.isPrefixOf l = true) :
    ':' ∈ l := by
  cases l with
  | nil => cases h
  | cons x xs =>
    simp only [mappedPre, List.isPrefixOf, Bool.and_eq_true] at h
    rw [eq_of_beq h.1]
    exact List.mem_cons_self _ _

theorem exists_three_head {α : Type} : ∀ {ps : List α}, 3 ≤ ps.length →
    ∃ p0 p1 p2 rest, ps = p0 :: p1 :: p2 :: rest
  | p0 :: p1 :: p2 :: rest, _ => ⟨p0, p1, p2, rest, rfl⟩
  | [], h => by simp at h
  | [_], h => by simp at h
  | [_, _], h => by simp at h

theorem exists_four {α : Type} : ∀ {ps : List α}, ps.length = 4 →
    ∃ p0 p1 p2 p3, ps = [p0, p1, p2, p3]
  | [p0, p1, p2, p3], _ => ⟨p0, p1, p2, p3, rfl⟩
  | [], h => by simp at h
  | [_], h => by simp at h
  | [_, _], h => by simp at h
  | [_, _, _], h => by simp at h
  | _ :: _ :: _ :: _ :: _ :: _, h => by simp [List.length] at h

theorem joinSep_three_append_suffix (p0 p1 p2 : Str) :
    joinSep ':' [p0, p1, p2] ++ ":xxxx:xxxx:xxxx:xxxx:xxxx".toList =
    joinSep ':' [p0, p1, p2, "xxxx".toList, "xxxx".toList, "xxxx".toList,
      "xxxx".toList, "xxxx".toList] := by
  have hs : ":xxxx:xxxx:xxxx:xxxx:xxxx".toList =
      ':' :: ("xxxx".toList ++ ':' :: ("xxxx".toList ++ ':' ::
        ("xxxx".toList ++ ':' :: ("xxxx".toList ++ ':' :: "xxxx".toList)))) := rfl
  rw [hs]
  simp [joinSep, List.append_assoc]

theorem joinSep_three_append_dot0 (p0 p1 p2 : Str) :
    joinSep '.' [p0, p1, p2] ++ ".0".toList = joinSep '.' [p0, p1, p2, ['0']] := by
  have hs : ".0".toList = '.' :: ['0'] := rfl
  rw [hs]
  simp [joinSep, List.append_assoc]

/-- `anonymizeIP` is idempotent on every input that does not begin with a
colon.  (It is not idempotent on some colon-initial inputs such as
`"::ffff"`, whose first image begins with the `::ffff:` marker that the
second application strips.) -/
theorem anonymizeIP_idem {l : Str} (h : l.head? ≠ some ':') :
    anonymizeIP (anonymizeIP l) = anonymizeIP l := by
  by_cases h0 : l = [] ∨ l = "unknown".toList
  · have h1 : anonymizeIP l = "unknown".toList := by
      simp only [anonymizeIP, if_pos h0]
    rw [h1]
    decide
  · have hstrip : stripMapped l = l := by
      simp [stripMapped, isPrefixOf_mapped_eq_false h]
    have hAl : anonymizeIP l = anonMask l := by
      simp only [anonymizeIP, if_neg h0, hstrip]
    by_cases hc : ':' ∈ l
    · by_cases hlen : 3 ≤ (splitSep ':' l).length
      · obtain ⟨y, ys, rfl⟩ : ∃ y ys, l = y :: ys := by
          rcases l with _ | ⟨y, ys⟩
          · exact absurd (Or.inl rfl) h0
          · exact ⟨y, ys, rfl⟩
        obtain ⟨p0, p1, p2, rest, hps⟩ := exists_three_head hlen
        have hy : y ≠ ':' := by
          intro hy
          exact h (by simp [hy])
        obtain ⟨hh, tt, heq, _⟩ := splitSep_cons_of_ne ys hy
        have hp0 : p0 = y :: hh := by
          rw [hps] at heq
          injection heq with h1 h2
        have hp0m : p0 ∈ splitSep ':' (y :: ys) := hps ▸ List.mem_cons_self _ _
        have hp1m : p1 ∈ splitSep ':' (y :: ys) :=
          hps ▸ List.mem_cons_of_mem _ (List.mem_cons_self _ _)
        have hp2m : p2 ∈ splitSep ':' (y :: ys) :=
          hps ▸ List.mem_cons_of_mem _ (List.mem_cons_of_mem _ (List.mem_cons_self _ _))
        have hnp0 : ':' ∉ p0 := not_mem_of_mem_splitSep hp0m
        have hnp1 : ':' ∉ p1 := not_mem_of_mem_splitSep hp1m
        have hnp2 : ':' ∉ p2 := not_mem_of_mem_splitSep hp2m
        obtain ⟨out, hout⟩ : ∃ o : Str,
            o = joinSep ':' [p0, p1, p2] ++ ":xxxx:xxxx:xxxx:xxxx:xxxx".toList :=
          ⟨_, rfl⟩
        have hmask : anonMask (y :: ys) = out := by
          simp only [anonMask, if_pos hc, hps]
          rw [if_pos (by simp)]
          rw [hout]
          simp [List.take]
        have hcout : ':' ∈ out := by
          rw [hout]
          refine List.mem_append.mpr (Or.inr ?_)
          decide
        have hone : out ≠ [] := List.ne_nil_of_mem hcout
        have hunk : out ≠ "unknown".toList := by
          intro he
          rw [he] at hcout
          revert hcout
          decide
        have hhead : out.head? = some y := by
          rw [hout, hp0]
          simp [joinSep]
        have hheadne : out.head? ≠ some ':' := by
          rw [hhead]
          simp [hy]
        have hbig : out = joinSep ':' [p0, p1, p2, "xxxx".toList, "xxxx".toList,
            "xxxx".toList, "xxxx".toList, "xxxx".toList] := by
          rw [hout]
          exact joinSep_three_append_suffix p0 p1 p2
        have hsp2 : splitSep ':' out = [p0, p1, p2, "xxxx".toList, "xxxx".toList,
            "xxxx".toList, "xxxx".toList, "xxxx".toList] := by
          rw [hbig]
          refine splitSep_joinSep (by simp) ?_
          intro p hp
          simp only [List.mem_cons] at hp
          rcases hp with h1 | h1 | h1 | h1 | h1 | h1 | h1 | h1 | h1
          · exact h1 ▸ hnp0
          · exact h1 ▸ hnp1
          · exact h1 ▸ hnp2
          · rw [h1]; decide
          · rw [h1]; decide
          · rw [h1]; decide
          · rw [h1]; decide
          · rw [h1]; decide
          · simp at h1
        have hmask2 : anonMask out = out := by
          simp only [anonMask, if_pos hcout, hsp2]
          rw [if_pos (by norm_num)]
          simp only [List.take]
          exact hout.symm
        have hA2 : anonymizeIP out = out := by
          have hcond : ¬(out = [] ∨ out = "unknown".toList) := by
            intro hor
            rcases hor with h1 | h1
            · exact hone h1
            · exact hunk h1
          have hstrip2 : stripMapped out = out := by
            simp [stripMapped, isPrefixOf_mapped_eq_false hheadne]
          simp only [anonymizeIP]
          rw [if_neg hcond, hstrip2]
          exact hmask2
        rw [hAl, hmask, hA2]
      · have hmask : anonMask l = l := by
          simp only [anonMask, if_pos hc, if_neg hlen]
        have hAl2 : anonymizeIP l = l := by rw [hAl, hmask]
        rw [hAl2, hAl2]
    · by_cases hlen : (splitSep '.' l).length = 4
      · obtain ⟨p0, p1, p2, p3, hps⟩ := exists_four hlen
        have hp0m : p0 ∈ splitSep '.' l := hps ▸ List.mem_cons_self _ _
        have hp1m : p1 ∈ splitSep '.' l :=
          hps ▸ List.mem_cons_of_mem _ (List.mem_cons_self _ _)
        have hp2m : p2 ∈ splitSep '.' l :=
          hps ▸ List.mem_cons_of_mem _ (List.mem_cons_of_mem _ (List.mem_cons_self _ _))
        have hnp0 : '.' ∉ p0 := not_mem_of_mem_splitSep hp0m
        have hnp1 : '.' ∉ p1 := not_mem_of_mem_splitSep hp1m
        have hnp2 : '.' ∉ p2 := not_mem_of_mem_splitSep hp2m
        obtain ⟨out, hout⟩ : ∃ o : Str,
            o = joinSep '.' [p0, p1, p2] ++ ".0".toList := ⟨_, rfl⟩
        have hmask : anonMask l = out := by
          simp only [anonMask, if_neg hc, hps]
          rw [if_pos (by simp)]
          rw [hout]
          simp [List.take]
        have hbig : out = joinSep '.' [p0, p1, p2, ['0']] := by
          rw [hout]
          exact joinSep_three_append_dot0 p0 p1 p2
        have hcout : ':' ∉ out := by
          intro hin
          rw [hbig] at hin
          rcases mem_joinSep hin with heq | ⟨p, hp, hinp⟩
          · revert heq
            decide
          · simp only [List.mem_cons] at hp
            rcases hp with h1 | h1 | h1 | h1 | h1
            · exact hc (mem_of_mem_splitSep hp0m (h1 ▸ hinp))
            · exact hc (mem_of_mem_splitSep hp1m (h1 ▸ hinp))
            · exact hc (mem_of_mem_splitSep hp2m (h1 ▸ hinp))
            · rw [h1] at hinp
              revert hinp
              decide
            · simp at h1
        have hdout : '.' ∈ out := by
          rw [hout]
          refine List.mem_append.mpr (Or.inr ?_)
          decide
        have hone : out ≠ [] := List.ne_nil_of_mem hdout
        have hunk : out ≠ "unknown".toList := by
          intro he
          rw [he] at hdout
          revert hdout
          decide
        have hheadne : out.head? ≠ some ':' := by
          intro hhd
          exact hcout (List.mem_of_mem_head? (hhd ▸ rfl))
        have hsp2 : splitSep '.' out = [p0, p1, p2, ['0']] := by
          rw [hbig]
          refine splitSep_joinSep (by simp) ?_
          intro p hp
          simp only [List.mem_cons] at hp
          rcases hp with h1 | h1 | h1 | h1 | h1
          · exact h1 ▸ hnp0
          · exact h1 ▸ hnp1
          · exact h1 ▸ hnp2
          · rw [h1]; decide
          · simp at h1
        have hmask2 : anonMask out = out := by
          simp only [anonMask, if_neg hcout, hsp2]
          rw [if_pos (by norm_num)]
          simp only [List.take]
          exact hout.symm
        have hA2 : anonymizeIP out = out := by
          have hcond : ¬(out = [] ∨ out = "unknown".toList) := by
            intro hor
            rcases hor with h1 | h1
            · exact hone h1
            · exact hunk h1
          have hstrip2 : stripMapped out = out := by
            simp [stripMapped, isPrefixOf_mapped_eq_false hheadne]
          simp only [anonymizeIP]
          rw [if_neg hcond, hstrip2]
          exact hmask2
        rw [hAl, hmask, hA2]
      · have hmask : anonMask l = l := by
          simp only [anonMask, if_neg hc, if_neg hlen]
        have hAl2 : anonymizeIP l = l := by rw [hAl, hmask]
        rw [hAl2, hAl2]

/-! ## Request model

Only the request fields that the admission pipeline and the audit logger
read are modelled. -/

structure PRequest where
  xForwardedFor : Option Str
  remoteAddress : Option Str
  userAgent : Option Str
  method : Str
  path : Str

/-- Client identity of a request, via `getClientIP`. -/
def clientIPOf (req : PRequest) : Str :=
  getClientIP req.xForwardedFor req.remoteAddress

/-- `req.get('user-agent') || 'unknown'` (the empty string is falsy). -/
def userAgentOf (req : PRequest) : Str :=
  match req.userAgent with
  | some ua => if ua = [] then "unknown".toList else ua
  | none => "unknown".toList

/-! ## Key-windowed counter store (src/utils/rateLimitStore.ts, `MemoryStore`)

The JavaScript `Map<string, HitRecord>` is modelled as a function
`Str → Option HitRecord`; `count` is an `Int` (a JavaScript number) and
`resetTime` a millisecond timestamp. -/

structure HitRecord where
  count : Int
  resetTime : Nat
deriving DecidableEq

abbrev RLStore := Str → Option HitRecord

/-- `this.hits.set(key, record)`. -/
def storeSet (s : RLStore) (key : Str) (r : HitRecord) : RLStore :=
  fun k => if k = key then some r else s k

/-- The empty store (a fresh `Map`). -/
def emptyStore : RLStore := fun _ => none

namespace MemoryStore

/-- `MemoryStore.increment`:

```
const record = this.hits.get(key);
if (!record || record.resetTime <= now) {
  const newRecord = { count: 1, resetTime: now + this.windowMs };
  this.hits.set(key, newRecord);
  return newRecord;
}
record.count++;
return record;
``` -/
def increment (windowMs now : Nat) (key : Str) (s : RLStore) : HitRecord × RLStore :=
  match s key with
  | none =>
    let newRecord : HitRecord := ⟨1, now + windowMs⟩
    (newRecord, storeSet s key newRecord)
  | some record =>
    if record.resetTime ≤ now then
      let newRecord : HitRecord := ⟨1, now + windowMs⟩
      (newRecord, storeSet s key newRecord)
    else
      let record' : HitRecord := ⟨record.count + 1, record.resetTime⟩
      (record', storeSet s key record')

/-- `MemoryStore.decrement`: decrement only an existing record with a
positive count. -/
def decrement (key : Str) (s : RLStore) : RLStore :=
  match s key with
  | none => s
  | some record =>
    if 0 < record.count then storeSet s key ⟨record.count - 1, record.resetTime⟩
    else s

/-- `MemoryStore.reset`: `this.hits.delete(key)`. -/
def reset (key : Str) (s : RLStore) : RLStore :=
  fun k => if k = key then none else s k

/-- `MemoryStore.cleanup`: the periodic sweep deleting expired records. -/
def cleanup (now : Nat) (s : RLStore) : RLStore :=
  fun k =>
    match s k with
    | none => none
    | some record => if record.resetTime ≤ now then none else some record

end MemoryStore

/-- One operation on the in-memory store (its whole public surface plus the
background sweep). -/
inductive MemOp where
  | incr (now : Nat) (key : Str)
  | decr (key : Str)
  | rst (key : Str)
  | sweep (now : Nat)

/-- Apply one store operation (the record returned by `increment` is
discarded). -/
def applyMemOp (windowMs : Nat) (s : RLStore) : MemOp → RLStore
  | .incr now key => (MemoryStore.increment windowMs now key s).2
  | .decr key => MemoryStore.decrement key s
  | .rst key => MemoryStore.reset key s
  | .sweep now => MemoryStore.cleanup now s

/-- Every record in the store has a non-negative count. -/
def storeInv (s : RLStore) : Prop :=
  ∀ k r, s k = some r → 0 ≤ r.count

/-! ## Redis-backed store (src/utils/redisStore.ts)

`RedisStore.decrement` issues an unconditional `DECR`:

```
async decrement(key) {
  if (!this.initialized) return;
  await this.client.decr(redisKey);
}
```
Redis `DECR` treats a missing key as `0` and stores the decremented value,
so the backing value can become negative.  Only the counter values are
modelled (key prefixing and TTLs do not affect the count). -/

structure RedisState where
  initialized : Bool
  counts : Str → Option Int

/-- Embedding of `RedisStore.decrement` on the Redis value space. -/
def redisDecrement (key : Str) (st : RedisState) : RedisState :=
  if st.initialized then
    { st with counts := fun k =>
        if k = key then some ((st.counts k).getD 0 - 1) else st.counts k }
  else st

/-! ## Rate-limit middleware (src/middleware/rateLimitMiddleware.ts) -/

/-- `Math.ceil(a / b)` on naturals. -/
def ceilDivNat (a b : Nat) : Nat := (a + b - 1) / b

/-- The `X-RateLimit-Limit` / `X-RateLimit-Remaining` / `X-RateLimit-Reset`
response headers. -/
structure RLHeaders where
  limit : Int
  remaining : Int
  reset : Nat
deriving DecidableEq

/-- The 429 JSON body. -/
structure RLBody where
  error : Str
  message : Str
deriving DecidableEq

/-- Outcome of the rate-limit stage.  `allowed h` means `next()` was invoked
(with the headers set when `h` is `some`); the two denial constructors mean a
response was sent and the continuation never runs. -/
inductive RLOutcome where
  | allowed (headers : Option RLHeaders)
  | denied429 (headers : RLHeaders) (body : RLBody)
  | deniedCustom (headers : RLHeaders)
deriving DecidableEq

structure RateLimitConfig where
  enabled : Bool
  windowMs : Nat
  max : Int
  keyGenerator : Option (PRequest → Str)
  hasCustomHandler : Bool

/-- Core of `handleRateLimit`, parameterised by the result of
`store.increment(key)` (`Except.error` models the store throwing):

```
if (!config.enabled) return next();
try {
  const { count, resetTime } = await store.increment(key);
  res.setHeader('X-RateLimit-Limit', config.max);
  res.setHeader('X-RateLimit-Remaining', Math.max(0, config.max - count));
  res.setHeader('X-RateLimit-Reset', Math.ceil(resetTime / 1000));
  if (count > config.max) {
    if (config.handler) { config.handler(req, res); }
    else { res.status(429).json({ error: 'Too Many Requests', ... }); }
    return;
  }
  next();
} catch (error) { next(); }  // fail open
``` -/
def handleRateLimit (config : RateLimitConfig)
    (incrResult : Except Unit HitRecord) : RLOutcome :=
  if ¬config.enabled then .allowed none
  else
    match incrResult with
    | .error _ => .allowed none
    | .ok r =>
      let headers : RLHeaders :=
        ⟨config.max, max 0 (config.max - r.count), ceilDivNat r.resetTime 1000⟩
      if config.max < r.count then
        if config.hasCustomHandler then .deniedCustom headers
        else .denied429 headers
          ⟨"Too Many Requests".toList,
           "Rate limit exceeded. Please try again later.".toList⟩
      else .allowed (some headers)

/-- One rate-limit stage evaluation against the in-memory store (the store
call succeeds). -/
def rlStep (config : RateLimitConfig) (key : Str) (now : Nat) (s : RLStore) :
    RLOutcome × RLStore :=
  if config.enabled then
    let (r, s') := MemoryStore.increment config.windowMs now key s
    (handleRateLimit config (.ok r), s')
  else (.allowed none, s)

/-- A sequence of rate-limit stage evaluations for one key at the given
times, threading the store. -/
def runTimes (config : RateLimitConfig) (key : Str) :
    List Nat → RLStore → List RLOutcome × RLStore
  | [], s => ([], s)
  | t :: ts, s =>
    let (o, s') := rlStep config key t s
    let (os, s'') := runTimes config key ts s'
    (o :: os, s'')

/-! ## Session guard middleware (src/middleware/sessionGuardMiddleware.ts) -/

structure Fingerprint where
  ip : Str
  userAgent : Str
  establishedAt : Nat
deriving DecidableEq

/-- The session object: `session.nis2Fingerprint` is set on first sight. -/
structure Session where
  nis2Fingerprint : Option Fingerprint
deriving DecidableEq

structure SessionGuardConfig where
  enabled : Bool
  enforceIpBinding : Bool
  enforceUaBinding : Bool

/-- Outcome of the session-guard stage: `pass` means `next()` was invoked;
`denied403` carries the JSON `error` and machine-readable `code` fields. -/
inductive SGOutcome where
  | pass
  | denied403 (error : Str) (code : Str)
deriving DecidableEq

/-- Embedding of `handleSessionGuard`.  The returned session is the new
session state: a destroyed session is `none`, a freshly bound session carries
the recorded fingerprint. -/
def handleSessionGuard (config : SessionGuardConfig) (currentIP currentUserAgent : Str)
    (now : Nat) (session : Option Session) : SGOutcome × Option Session :=
  if ¬config.enabled then (.pass, session)
  else
    match session with
    | none => (.pass, none)
    | some sess =>
      match sess.nis2Fingerprint with
      | none => (.pass, some ⟨some ⟨currentIP, currentUserAgent, now⟩⟩)
      | some fp =>
        if (config.enforceIpBinding ∧ fp.ip ≠ currentIP) ∨
            (config.enforceUaBinding ∧ fp.userAgent ≠ currentUserAgent) then
          (.denied403 "Session terminated due to security violation (Session Guard)".toList
            "NIS2_SESSION_HIJACK".toList, none)
        else (.pass, some sess)

/-! ## Tor detector (src/utils/torDetector.ts) -/

/-- Test IP that is always treated as a Tor exit node. -/
def TEST_TOR_IP : Str := "6.6.6.6".toList

/-- `TorDetector.isTorExitNodeSync`: check the current cache only. -/
def isTorExitNodeSync (exitNodes : List Str) (ip : Str) : Bool :=
  if ip = TEST_TOR_IP then true else exitNodes.contains ip

/-! ## GeoIP service (src/utils/geoipService.ts) -/

structure GeoIPResult where
  country : Option Str
  countryName : Option Str
deriving DecidableEq

/-- The GeoIP service: `initialized` is `isReady()` (database loaded), `db`
is the MaxMind reader, `defaultCountry` the configured fallback. -/
structure GeoIPService where
  initialized : Bool
  db : Str → Option GeoIPResult
  defaultCountry : Option Str

namespace GeoIPService

def isReady (g : GeoIPService) : Bool := g.initialized

/-- `GeoIPService.lookup`: fall back to the default result when the service
is not ready or the reader returns no country. -/
def lookup (g : GeoIPService) (ip : Str) : GeoIPResult :=
  let defaultResult : GeoIPResult := ⟨g.defaultCountry, none⟩
  if ¬g.initialized then defaultResult
  else
    match g.db ip with
    | none => defaultResult
    | some result => if result.country = none then defaultResult else result

/-- `GeoIPService.isBlocked`. -/
def isBlocked (g : GeoIPService) (ip : Str) (blockedCountries : List Str) : Bool :=
  if blockedCountries = [] then false
  else
    match (g.lookup ip).country with
    | none => false
    | some c => blockedCountries.contains c

/-- `GeoIPService.isAllowed`. -/
def isAllowed (g : GeoIPService) (ip : Str) (allowedCountries : List Str) : Bool :=
  if allowedCountries = [] then true
  else
    match (g.lookup ip).country with
    | none => false
    | some c => allowedCountries.contains c

end GeoIPService

/-! ## Active defense middleware (src/middleware/activeDefenseMiddleware.ts) -/

structure ActiveDefenseConfig where
  blockedIPs : List Str
  blockTor : Bool
  blockedCountries : List Str
  allowedCountries : List Str
  rateLimit : RateLimitConfig
  sessionGuard : SessionGuardConfig

/-- The process-wide singletons the active-defense stages consult. -/
structure Env where
  torExitNodes : List Str
  geo : GeoIPService

/-- `countryName || country || 'your region'` (JavaScript `||`, under which
the empty string is falsy). -/
def jsOr (a : Option Str) (b : Str) : Str :=
  match a with
  | some s => if s = [] then b else s
  | none => b

def geoDenyMessage (r : GeoIPResult) : Str :=
  "Access Denied: Access from ".toList ++
    jsOr r.countryName (jsOr r.country "your region".toList) ++
    " is not allowed.".toList

/-- Embedding of `handleActiveDefense`: `some message` means the request was
denied with a 403 `blockRequest(res, message)`; `none` means `next()` was
invoked.  Stages in source order: static blocked IPs, Tor exit nodes,
geo blocking (blocklist first, then allowlist). -/
def handleActiveDefense (config : ActiveDefenseConfig) (env : Env)
    (clientIP : Str) : Option Str :=
  if config.blockedIPs.contains clientIP then
    some "Access Denied: IP address is blocked.".toList
  else if config.blockTor ∧ isTorExitNodeSync env.torExitNodes clientIP then
    some "Access Denied: Tor exit nodes are not allowed.".toList
  else
    if (config.blockedCountries ≠ [] ∨ config.allowedCountries ≠ []) ∧
        env.geo.isReady then
      if config.blockedCountries ≠ [] ∧
          env.geo.isBlocked clientIP config.blockedCountries then
        some (geoDenyMessage (env.geo.lookup clientIP))
      else if config.allowedCountries ≠ [] ∧
          ¬env.geo.isAllowed clientIP config.allowedCountries then
        some (geoDenyMessage (env.geo.lookup clientIP))
      else none
    else none

/-! ## Pipeline orchestrator (src/index.ts, `nis2Shield`)

The orchestrator wires the stages with callbacks that stop as soon as a
response has been sent:

```
handleActiveDefense(req, res, () => {
  if (sessionGuard.enabled) {
    handleSessionGuard(req, res, () => {
      if (rateLimit.enabled) { handleRateLimit(req, res, proceed, ...); }
      else proceed();
    }, ...);
  } else {
    if (rateLimit.enabled) { handleRateLimit(req, res, proceed, ...); }
    else proceed();
  }
}, ...);
``` -/

/-- Final pipeline outcome for a request.  `proceed` means the downstream
continuation runs (with rate-limit headers when set); every other
constructor is a deny response and the continuation never runs. -/
inductive PipeOutcome where
  | proceed (headers : Option RLHeaders)
  | blocked403 (message : Str)
  | sessionDenied403 (code : Str)
  | rate429 (headers : RLHeaders) (body : RLBody)
  | rateCustom (headers : RLHeaders)
deriving DecidableEq

/-- Session-guard stage as run by the orchestrator (skipped unless
enabled). -/
def sessionStage (config : ActiveDefenseConfig) (req : PRequest) (now : Nat)
    (session : Option Session) : SGOutcome × Option Session :=
  if config.sessionGuard.enabled then
    handleSessionGuard config.sessionGuard (clientIPOf req) (userAgentOf req) now session
  else (.pass, session)

/-- Rate-limit stage as run by the orchestrator (skipped unless enabled);
the key is the custom generator if configured, else the client IP. -/
def rateStage (config : ActiveDefenseConfig) (req : PRequest) (now : Nat)
    (s : RLStore) : RLOutcome × RLStore :=
  if config.rateLimit.enabled then
    let key := match config.rateLimit.keyGenerator with
      | some g => g req
      | none => clientIPOf req
    rlStep config.rateLimit key now s
  else (.allowed none, s)

/-- Embedding of the `nis2Shield` middleware's admission pipeline: active
defense (static IP → Tor → geo), then session guard, then rate limit, each
deny short-circuiting the rest. -/
def nis2Pipeline (config : ActiveDefenseConfig) (env : Env) (req : PRequest)
    (now : Nat) (s : RLStore) (session : Option Session) :
    PipeOutcome × RLStore × Option Session :=
  match handleActiveDefense config env (clientIPOf req) with
  | some msg => (.blocked403 msg, s, session)
  | none =>
    match sessionStage config req now session with
    | (.denied403 _ code, session') => (.sessionDenied403 code, s, session')
    | (.pass, session') =>
      match rateStage config req now s with
      | (.allowed h, s') => (.proceed h, s', session')
      | (.denied429 h b, s') => (.rate429 h b, s', session')
      | (.deniedCustom h, s') => (.rateCustom h, s', session')

/-- Modelled from the spec: the pipeline with the claim's stage order, in
which the rate limit stage runs BEFORE the session fingerprint check (spec:
"static IP block → anonymity-network block → geo block → rate limit →
session check").  Used only to compare against the implementation order. -/
def nis2PipelineClaimedOrder (config : ActiveDefenseConfig) (env : Env)
    (req : PRequest) (now : Nat) (s : RLStore) (session : Option Session) :
    PipeOutcome × RLStore × Option Session :=
  match handleActiveDefense config env (clientIPOf req) with
  | some msg => (.blocked403 msg, s, session)
  | none =>
    match rateStage config req now s with
    | (.denied429 h b, s') => (.rate429 h b, s', session)
    | (.deniedCustom h, s') => (.rateCustom h, s', session)
    | (.allowed h, s') =>
      match sessionStage config req now session with
      | (.denied403 _ code, session') => (.sessionDenied403 code, s', session')
      | (.pass, session') => (.proceed h, s', session')

/-! ## Audit logging (src/middleware/auditingMiddleware.ts and
src/utils/logFormatter.ts)

The AES-256-CBC cipher and the HMAC are external collaborators (and the
cipher draws a random IV), so they are passed as opaque function
parameters; what is verified is which fields `formatLogEntry` does and does
not transform. -/

structure AuditRequestInfo where
  method : Str
  path : Str
  ip : Str
  user_agent : Str
deriving DecidableEq

structure AuditResponseInfo where
  status : Nat
  duration_ms : Nat
deriving DecidableEq

/-- The `user` object that `formatLogEntry` inspects (`log.user?.id`). -/
structure AuditUser where
  id : Option Str
deriving DecidableEq

structure AuditLog where
  timestamp : Str
  level : Str
  request : AuditRequestInfo
  response : AuditResponseInfo
  user_id : Option Str
  user : Option AuditUser
  metadata : List (Str × Str)
  integrity_hash : Option Str

structure LoggingConfig where
  enabled : Bool
  anonymizeIP : Bool
  encryptPII : Bool
  piiFields : Option (List Str)

/-- Embedding of `formatLogEntry`:

```
if (config.anonymizeIP) log.request.ip = anonymizeIP(log.request.ip);
if (config.encryptPII && encryptionKey) {
  const fieldsToEncrypt = config.piiFields || ['userId', 'email'];
  if (log.user?.id) log.user.id = encrypt(log.user.id, encryptionKey);
  for (const field of fieldsToEncrypt)
    if (typeof metadata[field] === 'string') metadata[field] = encrypt(...);
}
if (integrityKey) log.integrity_hash = generateHMAC(log, integrityKey);
``` -/
def formatLogEntry (baseLog : AuditLog) (config : LoggingConfig)
    (encryptionKey : Option Str) (integrityKey : Option Str)
    (encrypt : Str → Str → Str) (generateHMAC : AuditLog → Str → Str) :
    AuditLog :=
  let log := baseLog
  let log :=
    if config.anonymizeIP then
      { log with request := { log.request with ip := anonymizeIP log.request.ip } }
    else log
  let log :=
    match config.encryptPII, encryptionKey with
    | true, some key =>
      let fieldsToEncrypt := config.piiFields.getD ["userId".toList, "email".toList]
      let log :=
        match log.user with
        | some u =>
          match u.id with
          | some uid => { log with user := some ⟨some (encrypt uid key)⟩ }
          | none => log
        | none => log
      { log with metadata := log.metadata.map (fun fv =>
          if fieldsToEncrypt.contains fv.1 then (fv.1, encrypt fv.2 key) else fv) }
    | _, _ => log
  match integrityKey with
  | some ik => { log with integrity_hash := some (generateHMAC log ik) }
  | none => log

/-- The `baseLog` object built by `handleAuditing`: the extracted user
identifier is stored in the `user_id` field, and no `user` object is ever
attached. -/
def buildAuditLog (req : PRequest) (statusCode duration : Nat)
    (userId : Option Str) (timestamp : Str) : AuditLog :=
  { timestamp := timestamp
  , level :=
      if 500 ≤ statusCode then "ERROR".toList
      else if 400 ≤ statusCode then "WARN".toList
      else "INFO".toList
  , request := ⟨req.method, req.path, clientIPOf req, userAgentOf req⟩
  , response := ⟨statusCode, duration⟩
  , user_id := userId
  , user := none
  , metadata := []
  , integrity_hash := none }

/-- Embedding of `handleAuditing`: build the base log and format it. -/
def handleAuditing (req : PRequest) (statusCode duration : Nat)
    (userId : Option Str) (timestamp : Str) (config : LoggingConfig)
    (encryptionKey integrityKey : Option Str)
    (encrypt : Str → Str → Str) (generateHMAC : AuditLog → Str → Str) :
    AuditLog :=
  formatLogEntry (buildAuditLog req statusCode duration userId timestamp)
    config encryptionKey integrityKey encrypt generateHMAC

/-! ## Helper lemmas about the counter store and rate-limit sequences -/

theorem storeSet_same (s : RLStore) (key : Str) (r : HitRecord) :
    storeSet s key r key = some r := by
  simp [storeSet]

theorem increment_fresh {w now : Nat} {key : Str} {s : RLStore}
    (hs : s key = none) :
    MemoryStore.increment w now key s = (⟨1, now + w⟩, storeSet s key ⟨1, now + w⟩) := by
  simp [MemoryStore.increment, hs]

theorem increment_in_window {w now : Nat} {key : Str} {s : RLStore} {c : Int} {rt : Nat}
    (hs : s key = some ⟨c, rt⟩) (hlt : now < rt) :
    MemoryStore.increment w now key s = (⟨c + 1, rt⟩, storeSet s key ⟨c + 1, rt⟩) := by
  simp [MemoryStore.increment, hs, Nat.not_le.mpr hlt]

/-- The outcome of one rate-limit evaluation whose increment returned
`{count := cnt, resetTime := rt}`. -/
def stepOut (config : RateLimitConfig) (cnt : Int) (rt : Nat) : RLOutcome :=
  handleRateLimit config (.ok ⟨cnt, rt⟩)

theorem stepOut_allowed {config : RateLimitConfig} {n : Int} {rt : Nat}
    (hen : config.enabled = true) (hle : n ≤ config.max) :
    stepOut config n rt =
      .allowed (some ⟨config.max, config.max - n, ceilDivNat rt 1000⟩) := by
  simp [stepOut, handleRateLimit, hen, not_lt.mpr hle,
    max_eq_right (sub_nonneg.mpr hle)]

theorem stepOut_denied {config : RateLimitConfig} {n : Int} {rt : Nat}
    (hen : config.enabled = true) (hgt : config.max < n)
    (hch : config.hasCustomHandler = false) :
    stepOut config n rt =
      .denied429 ⟨config.max, max 0 (config.max - n), ceilDivNat rt 1000⟩
        ⟨"Too Many Requests".toList,
         "Rate limit exceeded. Please try again later.".toList⟩ := by
  simp [stepOut, handleRateLimit, hen, hgt, hch]

theorem rlStep_in_window {config : RateLimitConfig} {key : Str} {t : Nat}
    {s : RLStore} {c : Int} {rt : Nat}
    (hen : config.enabled = true) (hs : s key = some ⟨c, rt⟩) (hlt : t < rt) :
    rlStep config key t s = (stepOut config (c + 1) rt, storeSet s key ⟨c + 1, rt⟩) := by
  simp [rlStep, hen, increment_in_window hs hlt, stepOut]

theorem runTimes_cons (config : RateLimitConfig) (key : Str) (t : Nat)
    (ts : List Nat) (s : RLStore) :
    runTimes config key (t :: ts) s =
      ((rlStep config key t s).1 ::
        (runTimes config key ts (rlStep config key t s).2).1,
        (runTimes config key ts (rlStep config key t s).2).2) := by
  simp [runTimes]

/-- Running a sequence of in-window hits against a record `{count := c}`
produces the outcomes for counts `c+1, c+2, …` and leaves `count = c + n`. -/
theorem runTimes_in_window (config : RateLimitConfig) (key : Str) :
    ∀ (ts : List Nat) (c : Int) (rt : Nat) (s : RLStore),
      config.enabled = true → s key = some ⟨c, rt⟩ → (∀ t ∈ ts, t < rt) →
      (runTimes config key ts s).1 =
        (List.range ts.length).map (fun k : Nat => stepOut config (c + 1 + (k : Int)) rt) ∧
      (runTimes config key ts s).2 key = some ⟨c + ts.length, rt⟩ := by
  intro ts
  induction ts with
  | nil =>
    intro c rt s hen hs hw
    simp [runTimes, hs]
  | cons t ts ih =>
    intro c rt s hen hs hw
    have hlt : t < rt := hw t (List.mem_cons_self _ _)
    have hrl := rlStep_in_window hen hs hlt
    have hs' : storeSet s key ⟨c + 1, rt⟩ key = some ⟨c + 1, rt⟩ := storeSet_same _ _ _
    obtain ⟨ih1, ih2⟩ := ih (c + 1) rt _ hen hs'
      (fun t' ht' => hw t' (List.mem_cons_of_mem _ ht'))
    rw [runTimes_cons, hrl]
    refine ⟨?_, ?_⟩
    · show stepOut config (c + 1) rt :: (runTimes config key ts _).1 = _
      rw [ih1, List.length_cons, List.range_succ_eq_map, List.map_cons, List.map_map]
      refine congrArg₂ _ (by norm_num) ?_
      refine List.map_congr_left ?_
      intro k _
      show stepOut config (c + 1 + 1 + (k : Int)) rt =
        stepOut config (c + 1 + ((k + 1 : Nat) : Int)) rt
      congr 1
      push_cast
      ring
    · show (runTimes config key ts _).2 key = _
      rw [ih2]
      congr 2
      simp only [List.length_cons]
      push_cast
      ring

/-- Outcomes of a fresh-key sequence: the `k`-th hit (0-based) sees count
`1 + k`, and the final record holds `count = 1 + n`. -/
theorem runTimes_fresh (config : RateLimitConfig) (key : Str) (t0 : Nat)
    (ts : List Nat) (s0 : RLStore)
    (hen : config.enabled = true) (h0 : s0 key = none)
    (hwin : ∀ t ∈ ts, t < t0 + config.windowMs) :
    (∀ k : Nat, k < ts.length + 1 →
      (runTimes config key (t0 :: ts) s0).1[k]? =
        some (stepOut config (1 + (k : Int)) (t0 + config.windowMs))) ∧
    (runTimes config key (t0 :: ts) s0).2 key =
      some ⟨1 + ts.length, t0 + config.windowMs⟩ := by
  have hrl0 : rlStep config key t0 s0 =
      (stepOut config 1 (t0 + config.windowMs),
        storeSet s0 key ⟨1, t0 + config.windowMs⟩) := by
    simp [rlStep, hen, increment_fresh h0, stepOut]
  have hs1 : storeSet s0 key ⟨1, t0 + config.windowMs⟩ key =
      some ⟨1, t0 + config.windowMs⟩ := storeSet_same _ _ _
  obtain ⟨h1, h2⟩ := runTimes_in_window config key ts 1 (t0 + config.windowMs) _
    hen hs1 hwin
  rw [runTimes_cons, hrl0]
  refine ⟨?_, ?_⟩
  · intro k hk
    cases k with
    | zero =>
      show (stepOut config 1 _ :: _)[0]? = _
      simp
    | succ j =>
      show (stepOut config 1 _ :: (runTimes config key ts _).1)[j + 1]? = _
      rw [List.getElem?_cons_succ, h1, List.getElem?_map]
      have hj : j < ts.length := by
        simpa using Nat.lt_of_succ_lt_succ hk
      rw [List.getElem?_range hj]
      show some (stepOut config (1 + 1 + (j : Int)) _) =
        some (stepOut config (1 + ((j + 1 : Nat) : Int)) _)
      refine congrArg _ ?_
      congr 1
      push_cast
      ring
  · show (runTimes config key ts _).2 key = _
    rw [h2]

/-! ## Claim theorems -/

/-- C4: `MemoryStore.increment` returns `count = 1` and
`windowResetAt = now + windowMs` whenever no record exists, the window has
elapsed (`now ≥ windowResetAt`), or the key was reset — regardless of the
prior count; otherwise it increments the count by 1 and leaves
`windowResetAt` unchanged. -/
theorem memory_store_increment_spec (w now : Nat) (key : Str) (s : RLStore) :
    (s key = none →
      MemoryStore.increment w now key s = (⟨1, now + w⟩, storeSet s key ⟨1, now + w⟩)) ∧
    (∀ r, s key = some r → r.resetTime ≤ now →
      MemoryStore.increment w now key s = (⟨1, now + w⟩, storeSet s key ⟨1, now + w⟩)) ∧
    (∀ r, s key = some r → now < r.resetTime →
      MemoryStore.increment w now key s =
        (⟨r.count + 1, r.resetTime⟩, storeSet s key ⟨r.count + 1, r.resetTime⟩)) ∧
    (MemoryStore.increment w now key (MemoryStore.reset key s) =
      (⟨1, now + w⟩, storeSet (MemoryStore.reset key s) key ⟨1, now + w⟩)) := by
  refine ⟨?_, ?_, ?_, ?_⟩
  · intro h
    simp [MemoryStore.increment, h]
  · intro r h hexp
    simp [MemoryStore.increment, h, hexp]
  · intro r h hlive
    simp [MemoryStore.increment, h, Nat.not_le.mpr hlive]
  · have h : MemoryStore.reset key s key = none := by simp [MemoryStore.reset]
    simp [MemoryStore.increment, h]

theorem memory_store_increment_spec_witness :
    (emptyStore "k".toList = none) ∧
    MemoryStore.increment 60000 7 "k".toList emptyStore =
      (⟨1, 60007⟩, storeSet emptyStore "k".toList ⟨1, 60007⟩) :=
  ⟨rfl, by
    have h := (memory_store_increment_spec 60000 7 "k".toList emptyStore).1 rfl
    simpa using h⟩

/-- C5: when the counter store's `increment` throws, the rate-limit stage
fails open — `next()` is invoked and no error response reaches the
requester. -/
theorem rate_limit_fail_open (config : RateLimitConfig) (e : Unit)
    (hen : config.enabled = true) :
    handleRateLimit config (.error e) = .allowed none := by
  simp [handleRateLimit, hen]

theorem rate_limit_fail_open_witness :
    ((⟨true, 60000, 100, none, false⟩ : RateLimitConfig).enabled = true) ∧
    handleRateLimit ⟨true, 60000, 100, none, false⟩ (.error ()) = .allowed none :=
  ⟨rfl, rate_limit_fail_open ⟨true, 60000, 100, none, false⟩ () rfl⟩

/-- C9 (amended): IP anonymization is a pure, deterministic function with
`anonymize("192.168.1.50") = "192.168.1.0"`, and applying it twice equals
applying it once for every input string that does not begin with a colon
(idempotence fails on some colon-initial inputs such as `"::ffff"`). -/
theorem anonymize_ip_amended :
    anonymizeIP ("192.168.1.50".toList) = "192.168.1.0".toList ∧
    ∀ l : Str, l.head? ≠ some ':' → anonymizeIP (anonymizeIP l) = anonymizeIP l :=
  ⟨by decide, fun _ h => anonymizeIP_idem h⟩

theorem anonymize_ip_amended_witness :
    (("10.0.0.7".toList : Str).head? ≠ some ':') ∧
    anonymizeIP (anonymizeIP "10.0.0.7".toList) = anonymizeIP "10.0.0.7".toList :=
  ⟨by decide, anonymize_ip_amended.2 _ (by decide)⟩

/-- C9 counterexample: `anonymizeIP` is not idempotent on the input
`"::ffff"` — the first application yields
`"::ffff:xxxx:xxxx:xxxx:xxxx:xxxx"`, from which the second application
strips the `::ffff:` marker. -/
theorem anonymize_ip_not_idempotent :
    anonymizeIP (anonymizeIP "::ffff".toList) ≠ anonymizeIP "::ffff".toList := by
  decide

/-- C10 (amended): when the `x-forwarded-for` header is a non-empty string,
the client identity is the first comma-separated entry with surrounding
whitespace trimmed, regardless of the socket address; the socket remote
address (or `"unknown"`) serves as the identity exactly when the header is
absent or the empty string. -/
theorem get_client_ip_spec :
    (∀ (f : Str) (sock : Option Str), f ≠ [] →
      getClientIP (some f) sock = trimChars ((splitSep ',' f).headD [])) ∧
    (∀ sock : Option Str, getClientIP none sock = remoteOrUnknown sock) ∧
    (∀ sock : Option Str, getClientIP (some []) sock = remoteOrUnknown sock) := by
  refine ⟨?_, ?_, ?_⟩
  · intro f sock hf
    simp [getClientIP, hf]
  · intro sock
    simp [getClientIP]
  · intro sock
    simp [getClientIP]

theorem get_client_ip_spec_witness :
    (" 1.2.3.4 , 5.6.7.8".toList ≠ ([] : Str)) ∧
    getClientIP (some " 1.2.3.4 , 5.6.7.8".toList) (some "9.9.9.9".toList) =
      "1.2.3.4".toList := by
  refine ⟨by decide, ?_⟩
  rw [get_client_ip_spec.1 _ _ (by decide)]
  decide

/-- C10 counterexample: an empty (but present) `x-forwarded-for` header is
falsy in JavaScript, so the socket remote address serves as the identity
even though the header is present. -/
theorem get_client_ip_empty_header :
    getClientIP (some []) (some "9.9.9.9".toList) = "9.9.9.9".toList ∧
    (some ([] : Str)).isSome = true := by
  decide

/-- C2: for `N` requests with the same key within one window, with rate
limiting enabled and `N ≤ max`, every request is allowed and the `k`-th
response (1-based `k = index + 1`) carries remaining `max - k`,
limit `max`, and reset `⌈windowResetAt / 1000⌉` epoch seconds. -/
theorem rate_limit_within_quota (config : RateLimitConfig) (key : Str)
    (t0 : Nat) (ts : List Nat) (s0 : RLStore)
    (hen : config.enabled = true) (h0 : s0 key = none)
    (hwin : ∀ t ∈ ts, t < t0 + config.windowMs)
    (hmax : (ts.length : Int) + 1 ≤ config.max) :
    ∀ k : Nat, k < ts.length + 1 →
      (runTimes config key (t0 :: ts) s0).1[k]? =
        some (.allowed (some ⟨config.max, config.max - ((k : Int) + 1),
          ceilDivNat (t0 + config.windowMs) 1000⟩)) := by
  intro k hk
  obtain ⟨h1, _⟩ := runTimes_fresh config key t0 ts s0 hen h0 hwin
  rw [h1 k hk]
  have hkle : (k : Int) ≤ ts.length := by
    exact_mod_cast Nat.lt_succ_iff.mp hk
  have hle : 1 + (k : Int) ≤ config.max := by omega
  rw [stepOut_allowed hen hle]
  have : config.max - (1 + (k : Int)) = config.max - ((k : Int) + 1) := by ring
  rw [this]

theorem rate_limit_within_quota_witness :
    ((⟨true, 1000, 2, none, false⟩ : RateLimitConfig).enabled = true) ∧
    (emptyStore "1.2.3.4".toList = none) ∧
    (∀ t ∈ [5], t < 0 + 1000) ∧
    (runTimes ⟨true, 1000, 2, none, false⟩ "1.2.3.4".toList [0, 5] emptyStore).1[1]? =
      some (.allowed (some ⟨2, 0, 1⟩)) := by
  refine ⟨rfl, rfl, by decide, ?_⟩
  have h := rate_limit_within_quota ⟨true, 1000, 2, none, false⟩ "1.2.3.4".toList
    0 [5] emptyStore rfl rfl (by decide) (by norm_num) 1 (by norm_num)
  rw [h]
  decide

/-- C3: the `(max+1)`-th request with the same key within one window is
denied with status 429 and body error `"Too Many Requests"`, and the deny
path does not decrement the counter: the stored count is `max + 1`
afterwards. -/
theorem rate_limit_exceeded_429 (config : RateLimitConfig) (key : Str)
    (t0 : Nat) (ts : List Nat) (s0 : RLStore)
    (hen : config.enabled = true) (h0 : s0 key = none)
    (hwin : ∀ t ∈ ts, t < t0 + config.windowMs)
    (hch : config.hasCustomHandler = false)
    (hlen : (ts.length : Int) = config.max) :
    (runTimes config key (t0 :: ts) s0).1[ts.length]? =
      some (.denied429 ⟨config.max, 0, ceilDivNat (t0 + config.windowMs) 1000⟩
        ⟨"Too Many Requests".toList,
         "Rate limit exceeded. Please try again later.".toList⟩) ∧
    (runTimes config key (t0 :: ts) s0).2 key =
      some ⟨config.max + 1, t0 + config.windowMs⟩ := by
  obtain ⟨h1, h2⟩ := runTimes_fresh config key t0 ts s0 hen h0 hwin
  constructor
  · rw [h1 ts.length (Nat.lt_succ_self _)]
    have hgt : config.max < 1 + (ts.length : Int) := by omega
    rw [stepOut_denied hen hgt hch]
    have hrem : max (0 : Int) (config.max - (1 + (ts.length : Int))) = 0 := by
      refine max_eq_left ?_
      omega
    rw [hrem]
  · rw [h2]
    congr 2
    omega

theorem rate_limit_exceeded_429_witness :
    ((⟨true, 1000, 2, none, false⟩ : RateLimitConfig).enabled = true) ∧
    ((⟨true, 1000, 2, none, false⟩ : RateLimitConfig).hasCustomHandler = false) ∧
    (runTimes ⟨true, 1000, 2, none, false⟩ "1.2.3.4".toList [0, 5, 9] emptyStore).1[2]? =
      some (.denied429 ⟨2, 0, 1⟩
        ⟨"Too Many Requests".toList,
         "Rate limit exceeded. Please try again later.".toList⟩) ∧
    (runTimes ⟨true, 1000, 2, none, false⟩ "1.2.3.4".toList [0, 5, 9] emptyStore).2
      "1.2.3.4".toList = some ⟨3, 1000⟩ := by
  have h := rate_limit_exceeded_429 ⟨true, 1000, 2, none, false⟩ "1.2.3.4".toList
    0 [5, 9] emptyStore rfl rfl (by decide) rfl (by norm_num)
  refine ⟨rfl, rfl, ?_, ?_⟩
  · exact h.1.trans (by decide)
  · exact h.2.trans (by decide)

theorem storeInv_storeSet {s : RLStore} {key : Str} {r : HitRecord}
    (h : storeInv s) (hr : 0 ≤ r.count) : storeInv (storeSet s key r) := by
  intro k r' hk
  simp only [storeSet] at hk
  split at hk
  · cases hk
    exact hr
  · exact h k r' hk

theorem storeInv_applyMemOp (w : Nat) (op : MemOp) (s : RLStore)
    (h : storeInv s) : storeInv (applyMemOp w s op) := by
  cases op with
  | incr now key =>
    rcases hs : s key with _ | r
    · rw [show applyMemOp w s (.incr now key) = storeSet s key ⟨1, now + w⟩ by
        simp [applyMemOp, increment_fresh hs]]
      exact storeInv_storeSet h (by norm_num)
    · by_cases hexp : r.resetTime ≤ now
      · rw [show applyMemOp w s (.incr now key) = storeSet s key ⟨1, now + w⟩ by
          simp [applyMemOp, MemoryStore.increment, hs, hexp]]
        exact storeInv_storeSet h (by norm_num)
      · rw [show applyMemOp w s (.incr now key) =
            storeSet s key ⟨r.count + 1, r.resetTime⟩ by
          simp [applyMemOp, MemoryStore.increment, hs, hexp]]
        have := h key r hs
        exact storeInv_storeSet h (show (0 : Int) ≤ r.count + 1 by omega)
  | decr key =>
    rcases hs : s key with _ | r
    · rw [show applyMemOp w s (.decr key) = s by simp [applyMemOp, MemoryStore.decrement, hs]]
      exact h
    · by_cases hpos : 0 < r.count
      · rw [show applyMemOp w s (.decr key) =
            storeSet s key ⟨r.count - 1, r.resetTime⟩ by
          simp [applyMemOp, MemoryStore.decrement, hs, hpos]]
        have := h key r hs
        exact storeInv_storeSet h (show (0 : Int) ≤ r.count - 1 by omega)
      · rw [show applyMemOp w s (.decr key) = s by
          simp [applyMemOp, MemoryStore.decrement, hs, hpos]]
        exact h
  | rst key =>
    intro k r hk
    simp only [applyMemOp, MemoryStore.reset] at hk
    split at hk
    · cases hk
    · exact h k r hk
  | sweep now =>
    intro k r hk
    simp only [applyMemOp, MemoryStore.cleanup] at hk
    rcases hs : s k with _ | rec
    · rw [hs] at hk
      cases hk
    · rw [hs] at hk
      by_cases hexp : rec.resetTime ≤ now
      · simp [hexp] at hk
      · simp [hexp] at hk
        exact h k r (hk ▸ hs)

/-- C7 (amended): under the in-memory store every operation — increment,
decrement, reset, and the cleanup sweep — preserves `count ≥ 0` for every
record, and `decrement` on a missing record or a record with `count = 0` is
a no-op.  (The Redis store does NOT satisfy this: its `decrement` issues an
unconditional `DECR`, see the counterexample.) -/
theorem memory_store_count_nonneg (w : Nat) (ops : List MemOp) (s : RLStore)
    (hinv : storeInv s) :
    storeInv (ops.foldl (applyMemOp w) s) ∧
    (∀ key, s key = none → MemoryStore.decrement key s = s) ∧
    (∀ key r, s key = some r → r.count = 0 → MemoryStore.decrement key s = s) := by
  refine ⟨?_, ?_, ?_⟩
  · induction ops generalizing s with
    | nil => exact hinv
    | cons op ops ih =>
      exact ih (applyMemOp w s op) (storeInv_applyMemOp w op s hinv)
  · intro key hk
    simp [MemoryStore.decrement, hk]
  · intro key r hk hz
    simp [MemoryStore.decrement, hk, hz]

theorem memory_store_count_nonneg_witness :
    storeInv emptyStore ∧
    storeInv ([MemOp.incr 0 "k".toList, MemOp.decr "k".toList,
      MemOp.decr "k".toList].foldl (applyMemOp 1000) emptyStore) := by
  have hinv : storeInv emptyStore := by
    intro k r hk
    cases hk
  exact ⟨hinv, (memory_store_count_nonneg 1000
    [MemOp.incr 0 "k".toList, MemOp.decr "k".toList, MemOp.decr "k".toList]
    emptyStore hinv).1⟩

/-- C7 counterexample: `RedisStore.decrement` on a connected store with no
record for the key creates a record with count `-1` — the count does not
stay `≥ 0` and the missing-record decrement is not a no-op. -/
theorem redis_decrement_negative :
    (redisDecrement "k".toList ⟨true, fun _ => none⟩).counts "k".toList = some (-1) ∧
    ¬(0 : Int) ≤ -1 := by
  constructor
  · simp [redisDecrement]
  · decide

/-- C8: a session bound to fingerprint `{ip := A, ua := X}` is denied with
403 and the machine-readable code `NIS2_SESSION_HIJACK` on a later request
from `{ip := B, ua := X}` while IP binding is enforced, and the session is
destroyed; a request with no active session passes through unchanged. -/
theorem session_guard_ip_binding (config : SessionGuardConfig)
    (A B X : Str) (eAt now : Nat)
    (hen : config.enabled = true) (hip : config.enforceIpBinding = true)
    (hne : A ≠ B) :
    handleSessionGuard config B X now (some ⟨some ⟨A, X, eAt⟩⟩) =
      (.denied403
        "Session terminated due to security violation (Session Guard)".toList
        "NIS2_SESSION_HIJACK".toList, none) ∧
    (∀ (cfg : SessionGuardConfig) (ip ua : Str) (n : Nat),
      handleSessionGuard cfg ip ua n none = (.pass, none)) := by
  constructor
  · have hcond : (config.enforceIpBinding = true ∧ A ≠ B) ∨
        (config.enforceUaBinding = true ∧ X ≠ X) := Or.inl ⟨hip, hne⟩
    simp [handleSessionGuard, hen, hcond]
    exact ⟨hip, hne⟩
  · intro cfg ip ua n
    by_cases hc : cfg.enabled
    · simp [handleSessionGuard, hc]
    · simp [handleSessionGuard, hc]

theorem session_guard_ip_binding_witness :
    ("1.1.1.1".toList ≠ "2.2.2.2".toList) ∧
    handleSessionGuard ⟨true, true, false⟩ "2.2.2.2".toList "X".toList 5
        (some ⟨some ⟨"1.1.1.1".toList, "X".toList, 0⟩⟩) =
      (.denied403
        "Session terminated due to security violation (Session Guard)".toList
        "NIS2_SESSION_HIJACK".toList, none) :=
  ⟨by decide, (session_guard_ip_binding ⟨true, true, false⟩ "1.1.1.1".toList
    "2.2.2.2".toList "X".toList 0 5 rfl rfl (by decide)).1⟩

/-- C6: with PII encryption enabled and a symmetric key configured and a
user identifier present, the emitted record's `user_id` field is STILL the
plaintext identifier, for every cipher function: `handleAuditing` stores the
identifier under `user_id` but `formatLogEntry` only ever encrypts
`log.user?.id`, and no `user` object is ever attached (the repo's own test
expects `log.user.id` to be encrypted). -/
theorem audit_user_id_not_encrypted (req : PRequest) (statusCode duration : Nat)
    (u ts key : Str) (en an : Bool) (pf : Option (List Str)) (ik : Option Str)
    (encrypt : Str → Str → Str) (generateHMAC : AuditLog → Str → Str) :
    (handleAuditing req statusCode duration (some u) ts
        ⟨en, an, true, pf⟩ (some key) ik encrypt generateHMAC).user_id = some u ∧
    (handleAuditing req statusCode duration (some u) ts
        ⟨en, an, true, pf⟩ (some key) ik encrypt generateHMAC).user = none := by
  cases ik <;> cases an <;>
    simp [handleAuditing, formatLogEntry, buildAuditLog]

/-- C1 (amended): the admission stages run in the fixed order static IP
block → anonymity-network (Tor) block → geographic block → session
fingerprint check → rate limit, and the first stage to deny short-circuits
all later stages and the downstream handler.  In particular a session-guard
deny leaves the counter store untouched (the rate-limit stage never runs),
and the continuation runs only when every stage allows. -/
theorem pipeline_stage_order (config : ActiveDefenseConfig) (env : Env)
    (req : PRequest) (now : Nat) (s : RLStore) (session : Option Session) :
    (config.blockedIPs.contains (clientIPOf req) = true →
      nis2Pipeline config env req now s session =
        (.blocked403 "Access Denied: IP address is blocked.".toList, s, session)) ∧
    (config.blockedIPs.contains (clientIPOf req) = false →
      (config.blockTor ∧ isTorExitNodeSync env.torExitNodes (clientIPOf req)) →
      nis2Pipeline config env req now s session =
        (.blocked403 "Access Denied: Tor exit nodes are not allowed.".toList, s, session)) ∧
    (∀ msg, handleActiveDefense config env (clientIPOf req) = some msg →
      nis2Pipeline config env req now s session = (.blocked403 msg, s, session)) ∧
    (∀ e code session', handleActiveDefense config env (clientIPOf req) = none →
      sessionStage config req now session = (.denied403 e code, session') →
      nis2Pipeline config env req now s session =
        (.sessionDenied403 code, s, session')) ∧
    (∀ session', handleActiveDefense config env (clientIPOf req) = none →
      sessionStage config req now session = (.pass, session') →
      nis2Pipeline config env req now s session =
        (match rateStage config req now s with
         | (.allowed h, s') => (.proceed h, s', session')
         | (.denied429 h b, s') => (.rate429 h b, s', session')
         | (.deniedCustom h, s') => (.rateCustom h, s', session'))) := by
  have hblocked : ∀ msg, handleActiveDefense config env (clientIPOf req) = some msg →
      nis2Pipeline config env req now s session = (.blocked403 msg, s, session) := by
    intro msg hAD
    simp only [nis2Pipeline]
    rw [hAD]
  refine ⟨?_, ?_, hblocked, ?_, ?_⟩
  · intro h
    refine hblocked _ ?_
    have hm : clientIPOf req ∈ config.blockedIPs := by simpa using h
    simp [handleActiveDefense, hm]
  · intro h1 h2
    refine hblocked _ ?_
    have hm : clientIPOf req ∉ config.blockedIPs := by simpa using h1
    simp [handleActiveDefense, hm, h2]
  · intro e code session' hAD hsg
    simp only [nis2Pipeline]
    rw [hAD, hsg]
  · intro session' hAD hsg
    simp only [nis2Pipeline]
    rw [hAD, hsg]

theorem pipeline_stage_order_witness :
    ((⟨["9.9.9.9".toList], false, [], [], ⟨false, 0, 0, none, false⟩,
        ⟨false, false, false⟩⟩ : ActiveDefenseConfig).blockedIPs.contains
      (clientIPOf ⟨some "9.9.9.9".toList, none, none, "GET".toList, "/".toList⟩) = true) ∧
    nis2Pipeline
        ⟨["9.9.9.9".toList], false, [], [], ⟨false, 0, 0, none, false⟩,
          ⟨false, false, false⟩⟩
        ⟨[], ⟨false, fun _ => none, none⟩⟩
        ⟨some "9.9.9.9".toList, none, none, "GET".toList, "/".toList⟩
        0 emptyStore none =
      (.blocked403 "Access Denied: IP address is blocked.".toList, emptyStore, none) :=
  ⟨by decide, (pipeline_stage_order _ _ _ 0 emptyStore none).1 (by decide)⟩

/-- C1 counterexample: a request whose session fingerprint mismatches AND
whose rate quota is exhausted is answered with the session-hijack 403, not
the 429, and the counter store is never incremented — so the session check
runs BEFORE the rate limit, contradicting the claimed order (which the
`nis2PipelineClaimedOrder` model follows: it would answer 429 and increment
the counter). -/
theorem pipeline_order_counterexample :
    (nis2Pipeline
        ⟨[], false, [], [], ⟨true, 1000, 0, none, false⟩, ⟨true, true, false⟩⟩
        ⟨[], ⟨false, fun _ => none, none⟩⟩
        ⟨some "2.2.2.2".toList, none, some "X".toList, "GET".toList, "/".toList⟩
        0 emptyStore (some ⟨some ⟨"1.1.1.1".toList, "X".toList, 0⟩⟩)).1 =
      .sessionDenied403 "NIS2_SESSION_HIJACK".toList ∧
    (nis2Pipeline
        ⟨[], false, [], [], ⟨true, 1000, 0, none, false⟩, ⟨true, true, false⟩⟩
        ⟨[], ⟨false, fun _ => none, none⟩⟩
        ⟨some "2.2.2.2".toList, none, some "X".toList, "GET".toList, "/".toList⟩
        0 emptyStore (some ⟨some ⟨"1.1.1.1".toList, "X".toList, 0⟩⟩)).2.1
      "2.2.2.2".toList = none ∧
    (nis2PipelineClaimedOrder
        ⟨[], false, [], [], ⟨true, 1000, 0, none, false⟩, ⟨true, true, false⟩⟩
        ⟨[], ⟨false, fun _ => none, none⟩⟩
        ⟨some "2.2.2.2".toList, none, some "X".toList, "GET".toList, "/".toList⟩
        0 emptyStore (some ⟨some ⟨"1.1.1.1".toList, "X".toList, 0⟩⟩)).1 =
      .rate429 ⟨0, 0, 1⟩
        ⟨"Too Many Requests".toList,
         "Rate limit exceeded. Please try again later.".toList⟩ ∧
    (nis2PipelineClaimedOrder
        ⟨[], false, [], [], ⟨true, 1000, 0, none, false⟩, ⟨true, true, false⟩⟩
        ⟨[], ⟨false, fun _ => none, none⟩⟩
        ⟨some "2.2.2.2".toList, none, some "X".toList, "GET".toList, "/".toList⟩
        0 emptyStore (some ⟨some ⟨"1.1.1.1".toList, "X".toList, 0⟩⟩)).2.1
      "2.2.2.2".toList = some ⟨1, 1000⟩ := by
  refine ⟨?_, ?_, ?_, ?_⟩ <;> decide
